import Mathlib

/-!
Verification development for the Rainbond `pkg/event` client-side
log-shipping subsystem (`src/pkg/event/manager.go` and the discovery
`config` declarations).  The Go code is shallowly embedded: Go maps become
association lists, channels become numeric channel identifiers with an
explicit buffer map, goroutine-visible manager state becomes an explicit
`MState` record threaded through the operations, and the `int32` round-robin
cursor is an `Int` with explicit two's-complement wrap.  Helpers from
`pkg/util` (`Exec`, `SendNoBlocking`) and the discovery constructor are not
part of the given sources; they are modelled from the specification and are
marked as such in their doc comments.
-/

namespace RainbondEvent

/-- Association-list string map, embedding Go's `map[string]string`.
Assignment `m[k] = v` replaces the binding in place when the key exists and
appends it otherwise, so key order is first-assignment order. -/
def SMap := List (String × String)

instance : DecidableEq SMap := by unfold SMap; infer_instance

namespace SMap

/-- Go map indexing `m[k]` (the `v, ok` form). -/
def lookup (m : SMap) (k : String) : Option String :=
  match m with
  | [] => none
  | (k', v) :: rest => if k' = k then some v else lookup rest k

/-- Go map assignment `m[k] = v`: overwrite the existing binding or append. -/
def insert (m : SMap) (k v : String) : SMap :=
  match m with
  | [] => [(k, v)]
  | (k', v') :: rest => if k' = k then (k, v) :: rest else (k', v') :: insert rest k v

/-- The key sequence of the map. -/
def keys (m : SMap) : List String := m.map Prod.fst

end SMap

/-- Serialized log payload.  `ffjson.Marshal` of a `map[string]string` is
injective on the maps we build; the byte-level encoding is out of scope
(§1 of the spec), so a record travels as the map itself. -/
def Payload := SMap

instance : DecidableEq Payload := by unfold Payload; infer_instance

/-- Channel identity.  Go compares `chan []byte` values by reference
(`v.cacheChan == cacheChan`); a fresh channel gets a fresh identifier. -/
abbrev ChanId := Nat

/-- Buffers of the live channels: channel identity to queued payloads.
Go's `make(chan []byte, 100)` gives every cache channel capacity 100. -/
def ChanBufs := List (ChanId × List Payload)

/-- Capacity of every handle cache channel (`make(chan []byte, 100)`). -/
def chanCap : Nat := 100

namespace ChanBufs

def lookup (bufs : ChanBufs) (c : ChanId) : Option (List Payload) :=
  match bufs with
  | [] => none
  | (c', q) :: rest => if c' = c then some q else lookup rest c

def set (bufs : ChanBufs) (c : ChanId) (q : List Payload) : ChanBufs :=
  match bufs with
  | [] => [(c, q)]
  | (c', q') :: rest => if c' = c then (c, q) :: rest else (c', q') :: set rest c q

end ChanBufs

/-- Modelled from the spec: `util.SendNoBlocking` (not among the given
sources) performs a non-blocking push — `select` with a `default` branch —
so a payload is appended when the channel buffer is below capacity and
silently dropped when the buffer is full. -/
def sendNoBlocking (p : Payload) (c : ChanId) (bufs : ChanBufs) : ChanBufs :=
  match bufs.lookup c with
  | none => bufs
  | some q => if q.length < chanCap then bufs.set c (q ++ [p]) else bufs

/-- The `logger` struct: event id, current outbound channel (possibly nil),
creation time, plus an instance tag standing for Go pointer identity of the
`*logger` value (two distinct `&logger{...}` allocations differ). -/
structure LoggerV where
  instId : Nat
  event : String
  sendChan : Option ChanId
  createTime : Nat
  deriving DecidableEq, Repr

/-- Embeds `logger.send`: stamp `event_id`, `message` and `time` into the caller's
map, marshal it, and push it without blocking onto the current channel when
one is set.  `timeRFC` stands for `time.Now().Format(time.RFC3339)`, the
RFC3339 rendering of the wall-clock instant of the call; `ffjson.Marshal`
of a string map cannot fail, so the `err == nil` guard always passes.
Returns the caller's map after the in-place mutation together with the new
channel buffers; the function is total: it never blocks and surfaces no
error. -/
def loggerSend (l : LoggerV) (message : String) (info : SMap) (timeRFC : String)
    (bufs : ChanBufs) : SMap × ChanBufs :=
  let info := info.insert "event_id" l.event
  let info := info.insert "message" message
  let info := info.insert "time" timeRFC
  (info,
    match l.sendChan with
    | none => bufs
    | some c => sendNoBlocking info c bufs)

/-- Embeds `logger.Info`: replace a nil attribute map by a fresh one, stamp
`level = "info"` into it, and delegate to `send`.  The `Option SMap`
argument embeds Go's nilable `map[string]string`. -/
def loggerInfo (l : LoggerV) (message : String) (info : Option SMap)
    (timeRFC : String) (bufs : ChanBufs) : SMap × ChanBufs :=
  let info := (info.getD []).insert "level" "info"
  loggerSend l message info timeRFC bufs

/-- Association-list lookup for the string-keyed registries
(`map[string]handle`, `map[string]Logger`, `map[string]string`). -/
def alookup {β : Type _} (m : List (String × β)) (k : String) : Option β :=
  match m with
  | [] => none
  | (k', v) :: rest => if k' = k then some v else alookup rest k

/-- Go map assignment on a registry: replace the binding or append it. -/
def aset {β : Type _} (m : List (String × β)) (k : String) (v : β) :
    List (String × β) :=
  match m with
  | [] => [(k, v)]
  | (k', v') :: rest => if k' = k then (k, v) :: rest else (k', v') :: aset rest k v

/-- Go `delete(m, k)`: drop every binding of `k`. -/
def aerase {β : Type _} (m : List (String × β)) (k : String) : List (String × β) :=
  match m with
  | [] => []
  | (k', v) :: rest => if k' = k then aerase rest k else (k', v) :: aerase rest k

/-- Key sequence of a registry. -/
def akeys {β : Type _} (m : List (String × β)) : List String := m.map Prod.fst

/-- Set-style insertion for `abnormalServer` (a Go `map[string]string` used
as a set: `m.abnormalServer[k] = k`). -/
def insertSet (s : List String) (k : String) : List String :=
  if k ∈ s then s else s ++ [k]

/-- The `handle` struct fields the registry logic observes: its server
address and the identity of its `cacheChan`.  The `stop` channel, context
and back-pointer to the manager are represented by the drain-task model
below. -/
structure Handle where
  server : String
  cacheChan : ChanId
  deriving DecidableEq, Repr

/-- Two's-complement wrap of Go's 32-bit signed arithmetic
(`atomic.AddInt32` on the `qos` cursor wraps silently): reduce into
`[-2^31, 2^31)` modulo `2^32`. -/
def wrap32 (n : Int) : Int := (n + 2147483648) % 4294967296 - 2147483648

/-- The `manager` struct state guarded by its single mutex, plus two
freshness counters (`nextChan` for channel identities created by
`make(chan []byte, 100)`, `nextInst` for `*logger` allocation identities)
and `disOk`, which records whether `discover.GetDiscover` succeeded
(`m.dis != nil`). -/
structure MState where
  eventServer : List String
  handles : List (String × Handle)
  abnormalServer : List String
  loggers : List (String × LoggerV)
  qos : Int
  nextChan : Nat
  nextInst : Nat
  disOk : Bool
  deriving DecidableEq, Repr

/-- Allocate a handle for `server` with a fresh cache channel and register
it (`m.handles[server] = h; go h.HandleLog()`). -/
def newHandle (s : MState) (server : String) : MState :=
  { s with
    handles := aset s.handles server ⟨server, s.nextChan⟩
    nextChan := s.nextChan + 1 }

/-- The selection loop body of `manager.getLBChan`.  `fuel` counts the
remaining iterations of `for i := 0; i < len(m.eventServer); i++`.  Each
iteration reads `index := m.qos % int32(len(m.eventServer))` (Go `%` is
truncated division, `Int.tmod`), advances `qos` by one with 32-bit wrap,
skips abnormal addresses, returns the registered handle's channel when one
exists and otherwise lazily creates a handle.  When the loop exhausts, fall
back to the first handle the registry iteration yields (Go map order is
unspecified; the model takes the head of the association list, adequate for
order-insensitive properties and registries of at most one handle) and to
`nil` (`none`) when the registry is empty.  A negative index would make Go
panic on the slice access; the model returns `none` there. -/
def lbLoop (s : MState) : Nat → Option ChanId × MState
  | 0 =>
    match s.handles with
    | [] => (none, s)
    | (_, h) :: _ => (some h.cacheChan, s)
  | fuel + 1 =>
    let idx := s.qos.tmod (s.eventServer.length : Int)
    let s' := { s with qos := wrap32 (s.qos + 1) }
    if hidx : 0 ≤ idx ∧ idx.toNat < s'.eventServer.length then
      let server := s'.eventServer.get ⟨idx.toNat, hidx.2⟩
      if server ∈ s'.abnormalServer then lbLoop s' fuel
      else
        match alookup s'.handles server with
        | some h => (some h.cacheChan, s')
        | none =>
          (some s'.nextChan, newHandle s' server)
    else (none, s')

/-- Embeds `manager.getLBChan`: run the loop for `len(m.eventServer)` iterations. -/
def getLBChan (s : MState) : Option ChanId × MState :=
  lbLoop s s.eventServer.length

/-- The event-id normalization at the top of `manager.GetLogger`:
`if eventID == " " || len(eventID) == 0 { eventID = "system" }`. -/
def normalizeEventID (eventID : String) : String :=
  if eventID = " " ∨ eventID.length = 0 then "system" else eventID

/-- Embeds `manager.GetLogger`: normalize a blank event id to `"system"`, return
the registered logger when present, otherwise build one bound to a fresh
load-balancer selection.  `now` is the creation instant `time.Now()`. -/
def getLogger (s : MState) (eventID : String) (now : Nat) : LoggerV × MState :=
  match alookup s.loggers (normalizeEventID eventID) with
  | some l => (l, s)
  | none =>
    let r := getLBChan s
    let l : LoggerV := ⟨r.2.nextInst, normalizeEventID eventID, r.1, now⟩
    (l, { r.2 with loggers := aset r.2.loggers (normalizeEventID eventID) l,
                   nextInst := r.2.nextInst + 1 })

/-- Embeds `manager.ReleaseLogger`: look up the registry under `l.Event()` (the
looked-up value shadows the argument in the Go source) and delete the entry
when one exists — whichever logger instance it is. -/
def releaseLogger (s : MState) (l : LoggerV) : MState :=
  match alookup s.loggers l.event with
  | some _ => { s with loggers := aerase s.loggers l.event }
  | none => s

/-- One sweep of `manager.GC`: drop every logger whose creation time lies
more than a minute in the past (`l.CreateTime().Add(time.Minute).Before(time.Now())`).
Times are in seconds. -/
def gcSweep (s : MState) (now : Nat) : MState :=
  { s with loggers := s.loggers.filter (fun kv => ¬ kv.2.createTime + 60 < now) }

/-- Embeds `manager.RemoveHandle` (the deferred cleanup of `HandleLog`). -/
def removeHandle (s : MState) (server : String) : MState :=
  match alookup s.handles server with
  | some _ => { s with handles := aerase s.handles server }
  | none => s

/-- First half of `manager.DiscardedLoggerChan`: every handle whose
`cacheChan` is the broken channel has its address recorded abnormal. -/
def markAbnormal (s : MState) (cacheChan : ChanId) : MState :=
  { s with
    abnormalServer :=
      s.handles.foldl
        (fun ab kv => if kv.2.cacheChan = cacheChan then insertSet ab kv.1 else ab)
        s.abnormalServer }

/-- Second half of `manager.DiscardedLoggerChan`: walk the logger registry
and rebind every logger whose channel is the broken one to a fresh
load-balancer selection (`v.SetChan(m.getLBChan())`), threading the manager
state — each selection advances the shared cursor. -/
def migrateLoggers (cacheChan : ChanId) :
    MState → List (String × LoggerV) → List (String × LoggerV) × MState
  | s, [] => ([], s)
  | s, (k, l) :: rest =>
    if l.sendChan = some cacheChan then
      let (ch, s') := getLBChan s
      let (rest', s'') := migrateLoggers cacheChan s' rest
      ((k, { l with sendChan := ch }) :: rest', s'')
    else
      let (rest', s') := migrateLoggers cacheChan s rest
      ((k, l) :: rest', s')

/-- Embeds `manager.DiscardedLoggerChan`: mark the broken channel's backend
abnormal, then migrate the loggers bound to it. -/
def discardedLoggerChan (s : MState) (cacheChan : ChanId) : MState :=
  let s := markAbnormal s cacheChan
  let (ls, s') := migrateLoggers cacheChan s s.loggers
  { s' with loggers := ls }

/-- Embeds `config.Endpoint` from the discovery package: name, URL, weight and the
change-kind tag (`Mode`: 0 URL changed, 1 weight changed, 2 fully changed). -/
structure Endpoint where
  name : String
  url : String
  weight : Int
  mode : Int
  deriving DecidableEq, Repr

/-- The per-URL step of `UpdateEndpoints`' creation loop:
`if _, ok := m.handles[end.URL]; !ok { ... create and start a handle ... }`. -/
def addHandleIfAbsent (st : MState) (u : String) : MState :=
  if (alookup st.handles u).isSome then st else newHandle st u

/-- Embeds `manager.UpdateEndpoints`: no-op on an empty batch; otherwise clear the
abnormal set, create a handle for every URL that has none, drop every
handle whose address is not among the new URLs, and replace `eventServer`
with the new addresses.  Go rebuilds `eventServer` from the keys of its
`new` map in unspecified order; the model uses the URL list itself, which
carries the same elements whenever the batch's URLs are distinct, so only
order-insensitive facts about `eventServer` are meaningful. -/
def updateEndpoints (s : MState) (endpoints : List Endpoint) : MState :=
  if endpoints.length < 1 then s
  else
    let urls := endpoints.map Endpoint.url
    let s := { s with abnormalServer := [] }
    let s := urls.foldl addHandleIfAbsent s
    { s with
      handles := s.handles.filter (fun kv => kv.1 ∈ urls)
      eventServer := urls }

/-- What the environment does inside one open stream of `handle.HandleLog`:
the `select` observes shutdown (`ctx.Done()`), the stop signal, or a queued
record whose `logClient.Send` succeeds or fails. -/
inductive DrainEvent where
  | shutdown
  | stopSig
  | recvOk
  | recvFail
  deriving DecidableEq, Repr

/-- What the environment does to one invocation of the function passed to
`util.Exec`: the low-level connection fails (`NewEventClient` errors), the
connection succeeds but `client.Log` errors, or the stream opens and the
drain loop runs against a script of events. -/
inductive AttemptEnv where
  | connectFail
  | streamOpenFail
  | streamOk (events : List DrainEvent)
  deriving DecidableEq, Repr

/-- How one invocation of the `util.Exec` body ends: with a non-nil error
(`retErr`), with `nil` (`retNil`), or not at all yet — the `select` is still
blocked waiting (`blocked`). -/
inductive AttemptOutcome where
  | retErr
  | retNil
  | blocked
  deriving DecidableEq, Repr

/-- The `for { select { ... } }` drain loop of `handle.HandleLog` driven by
an event script.  Shutdown and stop close the stream and return `nil`; a
successful send continues; a failed send closes the stream, runs
`DiscardedLoggerChan` on the handle's channel, and returns `nil`. -/
def drainLoop (s : MState) (cacheChan : ChanId) :
    List DrainEvent → AttemptOutcome × MState
  | [] => (.blocked, s)
  | ev :: rest =>
    match ev with
    | .shutdown => (.retNil, s)
    | .stopSig => (.retNil, s)
    | .recvOk => drainLoop s cacheChan rest
    | .recvFail => (.retNil, discardedLoggerChan s cacheChan)

/-- One invocation of the closure `HandleLog` hands to `util.Exec`:
a connection failure returns the error; a stream-open failure after a
successful connection runs `DiscardedLoggerChan` and returns the error;
an open stream runs the drain loop. -/
def handleAttempt (s : MState) (cacheChan : ChanId) :
    AttemptEnv → AttemptOutcome × MState
  | .connectFail => (.retErr, s)
  | .streamOpenFail => (.retErr, discardedLoggerChan s cacheChan)
  | .streamOk events => drainLoop s cacheChan events

/-- Where the drain task stands after the scripted attempts: `terminated`
means `util.Exec` returned and the deferred `RemoveHandle` has run;
`waitingRetry` means the last attempt returned an error and the task is
sleeping out the retry interval (or has not attempted yet); `draining`
means it is blocked inside an open stream's `select`. -/
inductive TaskStatus where
  | terminated
  | waitingRetry
  | draining
  deriving DecidableEq, Repr

/-- Modelled from the spec: `util.Exec(ctx, f, wait)` is not among the
given sources; per §4.2/§5 it runs `f`, retries it forever at the fixed
`wait` interval while it returns an error (stopping only on context
cancellation), and returns once `f` returns `nil`.  This definition runs
`handle.HandleLog` under that `util.Exec` semantics, driven by a script of
attempt environments; when `Exec` returns, the deferred
`m.manager.RemoveHandle(m.server)` runs.  The result counts how many times
the body was invoked and reports the task's status and the final manager
state. -/
def handleLogRun (s : MState) (server : String) (cacheChan : ChanId) :
    List AttemptEnv → Nat × TaskStatus × MState
  | [] => (0, .waitingRetry, s)
  | env :: rest =>
    match handleAttempt s cacheChan env with
    | (.retNil, s') => (1, .terminated, removeHandle s' server)
    | (.blocked, s') => (1, .draining, s')
    | (.retErr, s') =>
      let (n, st, s'') := handleLogRun s' server cacheChan rest
      (n + 1, st, s'')

/-- Embeds `event.EventConfig`. -/
structure EventConfig where
  eventLogServers : List String
  discoverAddress : List String
  deriving DecidableEq, Repr

/-- Embeds `manager.Start`: spawn one handle per configured event server (the
registry is fresh, so plain assignment), register the discovery callback
only when the discovery client is non-nil (`if m.dis != nil`), and start
the GC loop. -/
def startM (s : MState) : MState :=
  s.eventServer.foldl newHandle s

/-- Modelled from the spec (for the discovery collaborator) and embedding
`NewManager`: `discover.GetDiscover` is not among the given sources; per §6 its
construction may fail, in which case `dis` stays nil and the manager
continues in degraded static-list mode provided a static server list
exists, else `NewManager` returns the error.  `disOk` says whether
construction succeeded.  On success the manager is built with fresh empty
registries and started. -/
def newManager (conf : EventConfig) (disOk : Bool) : Option MState :=
  if !disOk && conf.eventLogServers.length < 1 then none
  else some (startM
    { eventServer := conf.eventLogServers
      handles := []
      abnormalServer := []
      loggers := []
      qos := 0
      nextChan := 0
      nextInst := 0
      disOk := disOk })

/-- What `manager.Close` does: `m.cancel()` always runs; `m.dis.Stop()` is
then called with no nil guard (unlike `Start`), so on a degraded manager
(`m.dis == nil`) Go raises a nil-pointer panic before `return nil` is
reached. -/
structure CloseOutcome where
  ctxCancelled : Bool
  disStopped : Bool
  panicked : Bool
  deriving DecidableEq, Repr

/-- Embeds `manager.Close`. -/
def closeM (s : MState) : CloseOutcome :=
  if s.disOk then ⟨true, true, false⟩ else ⟨true, false, true⟩

/-- Embeds `logger.Error`, identical to `Info` up to the level value. -/
def loggerError (l : LoggerV) (message : String) (info : Option SMap)
    (timeRFC : String) (bufs : ChanBufs) : SMap × ChanBufs :=
  let info := (info.getD []).insert "level" "error"
  loggerSend l message info timeRFC bufs

/-- Embeds `logger.Debug`, identical to `Info` up to the level value. -/
def loggerDebug (l : LoggerV) (message : String) (info : Option SMap)
    (timeRFC : String) (bufs : ChanBufs) : SMap × ChanBufs :=
  let info := (info.getD []).insert "level" "debug"
  loggerSend l message info timeRFC bufs

/-! ### Concrete states exercised by the analysis -/

/-- A registry holding, under event id `"e"`, a logger instance distinct
from the one that will be passed to `ReleaseLogger`. -/
def c6State : MState :=
  { eventServer := [], handles := [], abnormalServer := [],
    loggers := [("e", ⟨2, "e", none, 0⟩)], qos := 0, nextChan := 0,
    nextInst := 3, disOk := true }

/-- Two backends, `a` abnormal: the state for the cursor-advance
counterexample. -/
def c4SkipState : MState :=
  { eventServer := ["a", "b"], handles := [("a", ⟨"a", 0⟩), ("b", ⟨"b", 1⟩)],
    abnormalServer := ["a"], loggers := [], qos := 0, nextChan := 2,
    nextInst := 0, disOk := true }

/-- Two healthy backends, cursor 0: the round-robin state. -/
def c4Healthy : MState :=
  { eventServer := ["a", "b"], handles := [("a", ⟨"a", 0⟩), ("b", ⟨"b", 1⟩)],
    abnormalServer := [], loggers := [], qos := 0, nextChan := 2,
    nextInst := 0, disOk := true }

/-- First of four consecutive selections on `c4Healthy`. -/
def c4Run1 : Option ChanId × MState := getLBChan c4Healthy

/-- Second consecutive selection. -/
def c4Run2 : Option ChanId × MState := getLBChan c4Run1.2

/-- Third consecutive selection. -/
def c4Run3 : Option ChanId × MState := getLBChan c4Run2.2

/-- Fourth consecutive selection. -/
def c4Run4 : Option ChanId × MState := getLBChan c4Run3.2

/-- The single-backend, single-logger state used to exercise the failure
paths of `HandleLog`. -/
def c1State : MState :=
  { eventServer := ["a"], handles := [("a", ⟨"a", 0⟩)], abnormalServer := [],
    loggers := [("e", ⟨0, "e", some 0, 0⟩)], qos := 0, nextChan := 1,
    nextInst := 1, disOk := true }

/-- The invariant claimed by the spec: every registered logger's queue
reference is nil or the queue of some currently registered handle. -/
def loggerChanInv (s : MState) : Prop :=
  ∀ kv ∈ s.loggers, kv.2.sendChan = none ∨
    ∃ hv ∈ s.handles, kv.2.sendChan = some hv.2.cacheChan

instance (s : MState) : Decidable (loggerChanInv s) := by
  unfold loggerChanInv; infer_instance

/-- One backend `a` (channel 0) with one logger bound to it. -/
def c5State : MState :=
  { eventServer := ["a"], handles := [("a", ⟨"a", 0⟩)], abnormalServer := [],
    loggers := [("e", ⟨0, "e", some 0, 0⟩)], qos := 0, nextChan := 1,
    nextInst := 1, disOk := true }

/-- The single-backend state used to refute C2's universal reading: one
server `a` (channel 0) and one logger bound to it. -/
def c2State : MState :=
  { eventServer := ["a"], handles := [("a", ⟨"a", 0⟩)], abnormalServer := [],
    loggers := [("e", ⟨0, "e", some 0, 0⟩)], qos := 0, nextChan := 1,
    nextInst := 1, disOk := true }

/-! ### Registry lemmas -/

theorem SMap.lookup_insert_self (m : SMap) (k v : String) :
    (m.insert k v).lookup k = some v := by
  induction m with
  | nil => simp [insert, lookup]
  | cons hd tl ih =>
    obtain ⟨k', v'⟩ := hd
    by_cases h : k' = k <;> simp [insert, lookup, h, ih]

theorem SMap.lookup_insert_ne (m : SMap) (k v k' : String) (h : k ≠ k') :
    (m.insert k v).lookup k' = m.lookup k' := by
  induction m with
  | nil => simp [insert, lookup, h]
  | cons hd tl ih =>
    obtain ⟨k₀, v₀⟩ := hd
    by_cases h0 : k₀ = k
    · subst h0
      simp [insert, lookup, h]
    · by_cases h1 : k₀ = k' <;>
        simp [insert, lookup, h0, h1, ih, Ne.symm h]


theorem alookup_append_of_none {β : Type _} (m m₂ : List (String × β)) (k : String)
    (h : alookup m k = none) : alookup (m ++ m₂) k = alookup m₂ k := by
  induction m with
  | nil => simp [alookup]
  | cons hd tl ih =>
    obtain ⟨k', v⟩ := hd
    by_cases hk : k' = k
    · simp [alookup, hk] at h
    · simp only [alookup, hk, if_false, List.cons_append] at h ⊢
      simp [alookup, hk, ih h]

theorem alookup_append_of_some {β : Type _} (m m₂ : List (String × β)) (k : String)
    (v : β) (h : alookup m k = some v) : alookup (m ++ m₂) k = some v := by
  induction m with
  | nil => simp [alookup] at h
  | cons hd tl ih =>
    obtain ⟨k', v'⟩ := hd
    by_cases hk : k' = k
    · simp only [alookup, hk, if_true] at h
      simp [alookup, hk, h]
    · simp only [alookup, hk, if_false] at h
      simp [alookup, hk, ih h]

theorem alookup_mem {β : Type _} (m : List (String × β)) (k : String) (v : β)
    (h : alookup m k = some v) : (k, v) ∈ m := by
  induction m with
  | nil => simp [alookup] at h
  | cons hd tl ih =>
    obtain ⟨k', v'⟩ := hd
    by_cases hk : k' = k
    · subst hk
      simp [alookup] at h
      simp [h]
    · simp only [alookup, hk, if_false] at h
      exact List.mem_cons_of_mem _ (ih h)

theorem alookup_isSome_iff_mem {β : Type _} (m : List (String × β)) (k : String) :
    (alookup m k).isSome = true ↔ k ∈ akeys m := by
  induction m with
  | nil => simp [alookup, akeys]
  | cons hd tl ih =>
    obtain ⟨k', v'⟩ := hd
    by_cases hk : k' = k <;> simp [alookup, akeys, hk, ih]
    exact fun h => (hk h.symm).elim

theorem aset_of_none {β : Type _} (m : List (String × β)) (k : String) (v : β)
    (h : alookup m k = none) : aset m k v = m ++ [(k, v)] := by
  induction m with
  | nil => simp [aset]
  | cons hd tl ih =>
    obtain ⟨k', v'⟩ := hd
    by_cases hk : k' = k
    · simp [alookup, hk] at h
    · simp only [alookup, hk, if_false] at h
      simp [aset, hk, ih h]

theorem alookup_aerase_self {β : Type _} (m : List (String × β)) (k : String) :
    alookup (aerase m k) k = none := by
  induction m with
  | nil => simp [aerase, alookup]
  | cons hd tl ih =>
    obtain ⟨k', v'⟩ := hd
    by_cases hk : k' = k
    · simpa [aerase, hk] using ih
    · simpa [aerase, alookup, hk] using ih

theorem alookup_aerase_ne {β : Type _} (m : List (String × β)) (k k' : String)
    (h : k' ≠ k) : alookup (aerase m k) k' = alookup m k' := by
  induction m with
  | nil => simp [aerase, alookup]
  | cons hd tl ih =>
    obtain ⟨k₀, v₀⟩ := hd
    by_cases hk : k₀ = k
    · have hne : ¬ k₀ = k' := by rw [hk]; exact fun hh => h hh.symm
      simp [aerase, hk, alookup, hne, ih, Ne.symm h]
    · by_cases hk' : k₀ = k' <;> simp [aerase, hk, alookup, hk', ih, h]

theorem alookup_filter_key_false {β : Type _} (m : List (String × β))
    (q : String → Bool) (k : String) (h : q k = false) :
    alookup (m.filter (fun kv => q kv.1)) k = none := by
  induction m with
  | nil => simp [alookup]
  | cons hd tl ih =>
    obtain ⟨k', v'⟩ := hd
    by_cases hq : q k' = true
    · have hk : k' ≠ k := fun he => by rw [he, h] at hq; cases hq
      simpa [alookup, hq, hk] using ih
    · simp only [Bool.not_eq_true] at hq
      simpa [List.filter_cons, hq] using ih

theorem alookup_filter_key_true {β : Type _} (m : List (String × β))
    (q : String → Bool) (k : String) (h : q k = true) :
    alookup (m.filter (fun kv => q kv.1)) k = alookup m k := by
  induction m with
  | nil => simp
  | cons hd tl ih =>
    obtain ⟨k', v'⟩ := hd
    by_cases hk : k' = k
    · subst hk
      simp [alookup, h]
    · by_cases hq : q k' = true
      · simpa [alookup, hq, hk] using ih
      · simp only [Bool.not_eq_true] at hq
        simpa [List.filter_cons, hq, alookup, hk] using ih

/-! ### Claim C9 — serialized record of `Info("msg", {"k":"v"})` -/

/-- C9 (confirmed): for a logger with event id `id`, `Info("msg", {"k":"v"})`
serializes a record whose key sequence is exactly
`k, level, event_id, message, time` — no key missing, none extra — with
`level = "info"`, `event_id = id`, `message = "msg"`, `k = "v"`, and `time`
the RFC3339 rendering of the call instant (`timeRFC`, produced by
`time.Now().Format(time.RFC3339)` in the source). -/
theorem c9_info_record_fields (i : Nat) (id : String) (ch : Option ChanId)
    (ct : Nat) (timeRFC : String) (bufs : ChanBufs) :
    (loggerInfo ⟨i, id, ch, ct⟩ "msg" (some [("k", "v")]) timeRFC bufs).1 =
      [("k", "v"), ("level", "info"), ("event_id", id), ("message", "msg"),
        ("time", timeRFC)] ∧
    SMap.keys (loggerInfo ⟨i, id, ch, ct⟩ "msg" (some [("k", "v")]) timeRFC bufs).1 =
      ["k", "level", "event_id", "message", "time"] := by
  constructor <;> rfl

/-! ### Claim C10 — emits mutate the caller's attribute map in place -/

/-- C10 (confirmed): a Go map is a reference, so the map the emit writes
`level`, `event_id`, `message` and `time` into is the caller's own map; the
embedding returns that map as the first component.  For every non-nil
caller map `m`, after `Info`/`Error`/`Debug` the caller's map carries the
four reserved keys — overwriting whatever `m` stored under them — and is
unchanged at every other key. -/
theorem c10_emit_mutates_caller_map (l : LoggerV) (message timeRFC : String)
    (m : SMap) (bufs : ChanBufs) :
    ((loggerInfo l message (some m) timeRFC bufs).1 =
      (((m.insert "level" "info").insert "event_id" l.event).insert
        "message" message).insert "time" timeRFC) ∧
    ((loggerError l message (some m) timeRFC bufs).1 =
      (((m.insert "level" "error").insert "event_id" l.event).insert
        "message" message).insert "time" timeRFC) ∧
    ((loggerDebug l message (some m) timeRFC bufs).1 =
      (((m.insert "level" "debug").insert "event_id" l.event).insert
        "message" message).insert "time" timeRFC) ∧
    (loggerInfo l message (some m) timeRFC bufs).1.lookup "level" = some "info" ∧
    (loggerInfo l message (some m) timeRFC bufs).1.lookup "event_id" = some l.event ∧
    (loggerInfo l message (some m) timeRFC bufs).1.lookup "message" = some message ∧
    (loggerInfo l message (some m) timeRFC bufs).1.lookup "time" = some timeRFC ∧
    (∀ k, k ≠ "level" → k ≠ "event_id" → k ≠ "message" → k ≠ "time" →
      (loggerInfo l message (some m) timeRFC bufs).1.lookup k = m.lookup k) := by
  refine ⟨rfl, rfl, rfl, ?_, ?_, ?_, ?_, ?_⟩
  · show SMap.lookup ((((m.insert "level" "info").insert "event_id" l.event).insert
      "message" message).insert "time" timeRFC) "level" = some "info"
    rw [SMap.lookup_insert_ne _ _ _ _ (by decide),
      SMap.lookup_insert_ne _ _ _ _ (by decide),
      SMap.lookup_insert_ne _ _ _ _ (by decide), SMap.lookup_insert_self]
  · show SMap.lookup ((((m.insert "level" "info").insert "event_id" l.event).insert
      "message" message).insert "time" timeRFC) "event_id" = some l.event
    rw [SMap.lookup_insert_ne _ _ _ _ (by decide),
      SMap.lookup_insert_ne _ _ _ _ (by decide), SMap.lookup_insert_self]
  · show SMap.lookup ((((m.insert "level" "info").insert "event_id" l.event).insert
      "message" message).insert "time" timeRFC) "message" = some message
    rw [SMap.lookup_insert_ne _ _ _ _ (by decide), SMap.lookup_insert_self]
  · exact SMap.lookup_insert_self _ _ _
  · intro k h1 h2 h3 h4
    show SMap.lookup ((((m.insert "level" "info").insert "event_id" l.event).insert
      "message" message).insert "time" timeRFC) k = m.lookup k
    rw [SMap.lookup_insert_ne _ _ _ _ (Ne.symm h4),
      SMap.lookup_insert_ne _ _ _ _ (Ne.symm h3),
      SMap.lookup_insert_ne _ _ _ _ (Ne.symm h2),
      SMap.lookup_insert_ne _ _ _ _ (Ne.symm h1)]

/-- C10 witness: concrete caller map `{"time": "old", "x": "y"}` — `time`
is overwritten, `x` survives. -/
theorem c10_emit_mutates_caller_map_witness :
    (loggerInfo ⟨0, "ev", none, 0⟩ "hello" (some [("time", "old"), ("x", "y")])
        "T0" []).1.lookup "x" = some "y" ∧
    (loggerInfo ⟨0, "ev", none, 0⟩ "hello" (some [("time", "old"), ("x", "y")])
        "T0" []).1.lookup "time" = some "T0" :=
  ⟨(c10_emit_mutates_caller_map ⟨0, "ev", none, 0⟩ "hello" "T0"
      [("time", "old"), ("x", "y")] []).2.2.2.2.2.2.2 "x"
      (by decide) (by decide) (by decide) (by decide),
    (c10_emit_mutates_caller_map ⟨0, "ev", none, 0⟩ "hello" "T0"
      [("time", "old"), ("x", "y")] []).2.2.2.2.2.2.1⟩

/-! ### Claim C7 — emits never block, never error, drop on nil/full -/

/-- C7 (confirmed): every emit is a total function of the state — it can
neither block nor surface an error to its caller (`util.SendNoBlocking`
is modelled from the spec as the non-blocking `select`-with-`default`
push).  When the logger's channel is nil, or the channel's buffer already
holds `chanCap` records, the channel buffers are untouched: the record is
silently dropped. -/
theorem c7_emit_nonblocking (l : LoggerV) (message timeRFC : String)
    (info : Option SMap) (bufs : ChanBufs) :
    (l.sendChan = none →
      (loggerInfo l message info timeRFC bufs).2 = bufs ∧
      (loggerError l message info timeRFC bufs).2 = bufs ∧
      (loggerDebug l message info timeRFC bufs).2 = bufs) ∧
    (∀ c q, l.sendChan = some c → bufs.lookup c = some q → chanCap ≤ q.length →
      (loggerInfo l message info timeRFC bufs).2 = bufs ∧
      (loggerError l message info timeRFC bufs).2 = bufs ∧
      (loggerDebug l message info timeRFC bufs).2 = bufs) := by
  constructor
  · intro h
    refine ⟨?_, ?_, ?_⟩ <;> simp [loggerInfo, loggerError, loggerDebug, loggerSend, h]
  · intro c q hc hq hlen
    have hfull : ¬ q.length < chanCap := Nat.not_lt.mpr hlen
    refine ⟨?_, ?_, ?_⟩ <;>
      simp [loggerInfo, loggerError, loggerDebug, loggerSend, hc,
        sendNoBlocking, hq, hfull]

/-- C7 witness: a logger with no backend drops the record, and a logger on
a full channel (capacity 100) drops the record. -/
theorem c7_emit_nonblocking_witness :
    (loggerInfo ⟨0, "ev", none, 0⟩ "m" none "T" []).2 = [] ∧
    (loggerInfo ⟨1, "ev", some 7, 0⟩ "m" none "T"
        [(7, List.replicate 100 [("p", "q")])]).2 =
      [(7, List.replicate 100 [("p", "q")])] :=
  ⟨((c7_emit_nonblocking ⟨0, "ev", none, 0⟩ "m" "T" none []).1 rfl).1,
    ((c7_emit_nonblocking ⟨1, "ev", some 7, 0⟩ "m" "T" none
        [(7, List.replicate 100 [("p", "q")])]).2 7
        (List.replicate 100 [("p", "q")]) rfl rfl (by simp [chanCap])).1⟩

/-! ### Claim C8 — `Close` on a degraded manager -/

/-- C8 (code bug): a manager constructed in degraded mode (discovery
construction failed but a static server list exists — `NewManager` then
keeps `dis = nil` and succeeds) panics inside `Close`: `m.cancel()` runs,
but `m.dis.Stop()` dereferences the nil discovery interface before
`return nil` is reached, so the discovery subscription is not stopped and
the call never returns.  `Start` guards the same field with
`if m.dis != nil`; `Close` does not.  With a working discovery client,
`Close` cancels the context, stops discovery, and returns nil. -/
theorem c8_close_panics_on_degraded_manager :
    (newManager ⟨["srv1"], []⟩ false).map closeM =
      some ⟨true, false, true⟩ ∧
    (newManager ⟨["srv1"], ["etcd1"]⟩ true).map closeM =
      some ⟨true, true, false⟩ ∧
    newManager ⟨[], []⟩ false = none := by
  decide

/-! ### Claim C6 — `ReleaseLogger` and logger identity -/

/-- C6 counterexample: the logger on record for `"e"` is instance 2, the
argument is the distinct instance 1, yet `ReleaseLogger` is not a no-op —
it deletes the entry (the Go body shadows the argument with the looked-up
value and never compares the two).  This falsifies "when a different Logger
instance is on record for the same event-id, the call is a no-op". -/
theorem c6_counterexample :
    (⟨1, "e", none, 0⟩ : LoggerV) ≠ ⟨2, "e", none, 0⟩ ∧
    alookup c6State.loggers "e" = some ⟨2, "e", none, 0⟩ ∧
    (releaseLogger c6State ⟨1, "e", none, 0⟩).loggers = [] ∧
    (releaseLogger c6State ⟨1, "e", none, 0⟩).loggers ≠ c6State.loggers := by
  decide

/-- C6 amended: `ReleaseLogger(l)` removes the registry entry for `l`'s
event-id whenever any logger is on record under that id — regardless of
whether it is `l` itself — and leaves every other event-id's entry
unchanged; when no entry exists under `l`'s event-id it is a no-op. -/
theorem c6_amended_release_any_instance (s : MState) (l : LoggerV) :
    alookup (releaseLogger s l).loggers l.event = none ∧
    (∀ e, e ≠ l.event →
      alookup (releaseLogger s l).loggers e = alookup s.loggers e) ∧
    (alookup s.loggers l.event = none → releaseLogger s l = s) := by
  refine ⟨?_, ?_, ?_⟩
  · unfold releaseLogger
    cases h : alookup s.loggers l.event with
    | none => simpa using h
    | some v => simpa using alookup_aerase_self s.loggers l.event
  · intro e he
    unfold releaseLogger
    cases h : alookup s.loggers l.event with
    | none => rfl
    | some v => simpa using alookup_aerase_ne s.loggers l.event e he
  · intro h
    unfold releaseLogger
    rw [h]

/-- C6 amended witness at `c6State` and the distinct instance 1. -/
theorem c6_amended_release_any_instance_witness :
    alookup (releaseLogger c6State ⟨1, "e", none, 0⟩).loggers "e" = none ∧
    alookup (releaseLogger c6State ⟨1, "e", none, 0⟩).loggers "other" =
      alookup c6State.loggers "other" :=
  ⟨(c6_amended_release_any_instance c6State ⟨1, "e", none, 0⟩).1,
    (c6_amended_release_any_instance c6State ⟨1, "e", none, 0⟩).2.1 "other"
      (by decide)⟩

/-! ### Claim C4 — round-robin cursor advancement -/

/-- C4 counterexample: with servers `[a, b]`, `a` abnormal and cursor 0,
one selection returns `b`'s queue but advances the shared cursor from 0 to
2 — the loop increments `qos` once per examined address, so the skipped
abnormal address also advances it.  This falsifies "advancing the shared
cursor by exactly one per selection call (regardless of how many abnormal
addresses are skipped)". -/
theorem c4_counterexample :
    c4SkipState.qos = 0 ∧
    (getLBChan c4SkipState).1 = some 1 ∧
    (getLBChan c4SkipState).2.qos = 2 ∧
    (getLBChan c4SkipState).2.qos ≠ c4SkipState.qos + 1 := by
  decide

/-- C4 amended: selection is round-robin starting at `cursor mod
len(servers)`, but the shared cursor advances by one per *examined*
address, so a call that skips `j` abnormal addresses advances it by
`j + 1`.  With servers `[a, b]` both healthy and cursor 0, four
consecutive selections yield the queues of `a, b, a, b` (channels 0, 1,
0, 1) and each such skip-free call advances the cursor by exactly one;
with `a` abnormal, a single call advances the cursor by two. -/
theorem c4_amended_round_robin :
    (c4Run1.1 = some 0 ∧ c4Run2.1 = some 1 ∧
      c4Run3.1 = some 0 ∧ c4Run4.1 = some 1) ∧
    (c4Run1.2.qos = 1 ∧ c4Run2.2.qos = 2 ∧
      c4Run3.2.qos = 3 ∧ c4Run4.2.qos = 4) ∧
    (getLBChan c4SkipState).2.qos = c4SkipState.qos + 2 := by
  decide

/-! ### Claim C1 — the two-tier failure policy of a drain task -/

theorem drainLoop_sendFail (s : MState) (c : ChanId) (n : Nat) :
    drainLoop s c (List.replicate n .recvOk ++ [.recvFail]) =
      (.retNil, discardedLoggerChan s c) := by
  induction n with
  | zero => rfl
  | succ k ih => simpa [List.replicate_succ, drainLoop] using ih

theorem drainLoop_ne_retErr (s : MState) (c : ChanId) (evs : List DrainEvent) :
    (drainLoop s c evs).1 ≠ .retErr := by
  induction evs generalizing s with
  | nil => simp [drainLoop]
  | cons ev rest ih =>
    cases ev <;> simp [drainLoop, ih]

/-- C1 counterexample: the low-level connection succeeds but the log-record
stream fails to open (`client.Log` errors).  `HandleLog` then runs
`DiscardedLoggerChan` and `return err` — and `util.Exec` retries a body
that returned an error, so a second attempt by the same Handle follows,
and after a single such failure the task is sleeping out the retry
interval with its Handle still registered, not terminated.  This falsifies
"the log-record stream failing to open after a successful low-level
connection is never retried … and terminates permanently". -/
theorem c1_counterexample :
    (handleLogRun c1State "a" 0 [.streamOpenFail, .streamOpenFail]).1 = 2 ∧
    (handleLogRun c1State "a" 0 [.streamOpenFail]).2.1 = .waitingRetry ∧
    alookup (handleLogRun c1State "a" 0 [.streamOpenFail]).2.2.handles "a" =
      some ⟨"a", 0⟩ := by
  decide

/-- C1 amended: the two failure kinds behave differently.  A send failure
on an already-open stream is never retried: after `n` successful sends the
attempt triggers failover (`DiscardedLoggerChan`), returns nil, and the
task terminates permanently with its Handle removed — one attempt, no
second one, whatever script follows.  Indeed once a stream is open the
Handle never makes a second attempt at all.  A connection failure and a
stream-open failure, by contrast, return the error to `util.Exec` and are
retried (the stream-open failure additionally triggers failover first). -/
theorem c1_amended_two_tier_policy (s : MState) (server : String) (c : ChanId)
    (n : Nat) (evs : List DrainEvent) (rest : List AttemptEnv) :
    handleLogRun s server c
        (.streamOk (List.replicate n .recvOk ++ [.recvFail]) :: rest) =
      (1, .terminated, removeHandle (discardedLoggerChan s c) server) ∧
    (handleLogRun s server c (.streamOk evs :: rest)).1 = 1 ∧
    (handleLogRun s server c (.connectFail :: rest)).1 =
      1 + (handleLogRun s server c rest).1 ∧
    (handleLogRun s server c (.streamOpenFail :: rest)).1 =
      1 + (handleLogRun (discardedLoggerChan s c) server c rest).1 := by
  refine ⟨?_, ?_, ?_, ?_⟩
  · simp [handleLogRun, handleAttempt, drainLoop_sendFail]
  · have h := drainLoop_ne_retErr s c evs
    simp only [handleLogRun, handleAttempt]
    rcases hd : drainLoop s c evs with ⟨out, s'⟩
    rw [hd] at h
    cases out with
    | retErr => exact absurd rfl h
    | retNil => rfl
    | blocked => rfl
  · simp only [handleLogRun, handleAttempt]
    rcases hr : handleLogRun s server c rest with ⟨nn, st, s'⟩
    simp [Nat.add_comm]
  · simp only [handleLogRun, handleAttempt]
    rcases hr : handleLogRun (discardedLoggerChan s c) server c rest
      with ⟨nn, st, s'⟩
    simp [Nat.add_comm]

/-! ### Claim C5 — the logger-queue/handle-registry invariant -/

/-- C5 counterexample: the invariant holds in `c5State`, but
`UpdateEndpoints` with the single new address `"b"` removes `a`'s handle
without reassigning the logger bound to `a`'s queue, leaving a non-nil
queue reference that matches no registered handle.  This falsifies "every
operation … preserves this". -/
theorem c5_counterexample :
    loggerChanInv c5State ∧
    ¬ loggerChanInv (updateEndpoints c5State [⟨"nb", "b", 0, 0⟩]) := by
  decide

theorem lbLoop_spec (fuel : Nat) (s : MState) :
    (∀ kv ∈ s.handles, kv ∈ (lbLoop s fuel).2.handles) ∧
    (lbLoop s fuel).2.loggers = s.loggers ∧
    ((lbLoop s fuel).1 = none ∨
      ∃ hv ∈ (lbLoop s fuel).2.handles, (lbLoop s fuel).1 = some hv.2.cacheChan) := by
  induction fuel generalizing s with
  | zero =>
    cases hh : s.handles with
    | nil => simp [lbLoop, hh]
    | cons kv rest =>
      obtain ⟨k, h⟩ := kv
      refine ⟨?_, ?_, ?_⟩
      · intro kv hkv
        simpa [lbLoop, hh] using hkv
      · simp [lbLoop, hh]
      · right
        exact ⟨(k, h), by simp [lbLoop, hh], by simp [lbLoop, hh]⟩
  | succ fuel ih =>
    simp only [lbLoop]
    split
    · rename_i hidx
      split
      · exact ih { s with qos := wrap32 (s.qos + 1) }
      · split
        · rename_i h heq
          refine ⟨fun kv hkv => hkv, rfl, Or.inr ⟨(_, h), alookup_mem _ _ _ heq, rfl⟩⟩
        · rename_i heq
          refine ⟨?_, rfl, Or.inr ?_⟩
          · intro kv hkv
            simp only [newHandle, aset_of_none _ _ _ heq]
            exact List.mem_append_left _ hkv
          · simp only [newHandle, aset_of_none _ _ _ heq]
            exact ⟨(_, ⟨_, s.nextChan⟩),
              List.mem_append_right _ (List.mem_singleton.mpr rfl), rfl⟩
    · exact ⟨fun kv hkv => hkv, rfl, Or.inl rfl⟩

theorem aerase_subset {β : Type _} (m : List (String × β)) (k : String) :
    ∀ kv ∈ aerase m k, kv ∈ m := by
  induction m with
  | nil => simp [aerase]
  | cons hd tl ih =>
    obtain ⟨k₀, v₀⟩ := hd
    by_cases hk : k₀ = k
    · intro kv hkv
      exact List.mem_cons_of_mem _ (ih kv (by simpa [aerase, hk] using hkv))
    · intro kv hkv
      rcases (by simpa [aerase, hk] using hkv :
          kv = (k₀, v₀) ∨ kv ∈ aerase tl k) with h | h
      · simp [h]
      · exact List.mem_cons_of_mem _ (ih kv h)

/-- C5 amended: the invariant is preserved by the operations that do not
remove handles — `GetLogger` (which may only add handles and binds the new
logger to a selection result), `ReleaseLogger` and the GC sweep (which only
remove loggers) — but not by the handle-removing operations:
`UpdateEndpoints` and handle removal after a stream failure do not
reassign the loggers bound to the dropped handle's queue, so a logger's
queue reference can dangle (counterexample above). -/
theorem c5_amended_invariant_preservation (s : MState) (h : loggerChanInv s) :
    (∀ eventID now, loggerChanInv (getLogger s eventID now).2) ∧
    (∀ l, loggerChanInv (releaseLogger s l)) ∧
    (∀ now, loggerChanInv (gcSweep s now)) := by
  refine ⟨?_, ?_, ?_⟩
  · intro eventID now
    unfold getLogger
    cases hl : alookup s.loggers (normalizeEventID eventID) with
    | some l => exact h
    | none =>
      obtain ⟨hmono, hlog, hch⟩ := lbLoop_spec s.eventServer.length s
      simp only [getLBChan] at *
      intro kv hkv
      simp only [loggerChanInv, hlog] at hkv ⊢
      rw [aset_of_none _ _ _ hl] at hkv
      rcases List.mem_append.mp hkv with hkv | hkv
      · rcases h kv hkv with hnone | ⟨hv, hhv, hc⟩
        · exact Or.inl hnone
        · exact Or.inr ⟨hv, hmono hv hhv, hc⟩
      · rcases List.mem_singleton.mp hkv with rfl
        rcases hch with hnone | ⟨hv, hhv, hc⟩
        · exact Or.inl hnone
        · exact Or.inr ⟨hv, hhv, by simpa using hc⟩
  · intro l
    unfold releaseLogger
    cases hl : alookup s.loggers l.event with
    | none => exact h
    | some v =>
      intro kv hkv
      exact h kv (aerase_subset _ _ kv hkv)
  · intro now
    intro kv hkv
    exact h kv (List.mem_filter.mp hkv).1

/-- C5 amended witness: the invariant holds in `c5State` and still holds
after acquiring a fresh logger there. -/
theorem c5_amended_invariant_preservation_witness :
    loggerChanInv (getLogger c5State "x" 5).2 :=
  (c5_amended_invariant_preservation c5State (by decide)).1 "x" 5

/-! ### Claim C3 — `UpdateEndpoints` reconciliation -/

theorem foldl_addHandle_spec (urls : List String) :
    ∀ s : MState, urls.Nodup →
    (urls.foldl addHandleIfAbsent s).nextChan =
      s.nextChan + (urls.filter (fun u => (alookup s.handles u).isNone)).length ∧
    (∀ k, (alookup s.handles k).isSome →
      (alookup (urls.foldl addHandleIfAbsent s).handles k).isSome) ∧
    (∀ u ∈ urls, (alookup (urls.foldl addHandleIfAbsent s).handles u).isSome) ∧
    (urls.foldl addHandleIfAbsent s).eventServer = s.eventServer ∧
    (urls.foldl addHandleIfAbsent s).abnormalServer = s.abnormalServer ∧
    (urls.foldl addHandleIfAbsent s).loggers = s.loggers := by
  induction urls with
  | nil =>
    intro s _
    simp [List.foldl]
  | cons u rest ih =>
    intro s hnd
    have hu : u ∉ rest := (List.nodup_cons.mp hnd).1
    have hrest : rest.Nodup := (List.nodup_cons.mp hnd).2
    simp only [List.foldl_cons]
    by_cases hsome : (alookup s.handles u).isSome
    · have hstep : addHandleIfAbsent s u = s := by
        simp [addHandleIfAbsent, hsome]
      obtain ⟨ih1, ih2, ih3, ih4, ih5, ih6⟩ := ih s hrest
      rw [hstep]
      refine ⟨?_, ih2, ?_, ih4, ih5, ih6⟩
      · rw [ih1]
        have : (alookup s.handles u).isNone = false := by
          cases h : alookup s.handles u
          · rw [h] at hsome; cases hsome
          · rfl
        simp [List.filter_cons, this]
      · intro v hv
        rcases List.mem_cons.mp hv with rfl | hv
        · exact ih2 v hsome
        · exact ih3 v hv
    · have hnone : alookup s.handles u = none := by
        cases h : alookup s.handles u
        · rfl
        · rw [h] at hsome; simp at hsome
      have hstep : addHandleIfAbsent s u = newHandle s u := by
        simp [addHandleIfAbsent, hsome]
      rw [hstep]
      obtain ⟨ih1, ih2, ih3, ih4, ih5, ih6⟩ := ih (newHandle s u) hrest
      have hh2 : (newHandle s u).handles = s.handles ++ [(u, ⟨u, s.nextChan⟩)] := by
        simp [newHandle, aset_of_none _ _ _ hnone]
      have hlift : ∀ x, x ≠ u →
          alookup (newHandle s u).handles x = alookup s.handles x := by
        intro x hx
        rw [hh2]
        cases h : alookup s.handles x with
        | some v => exact alookup_append_of_some _ _ _ _ h
        | none =>
          rw [alookup_append_of_none _ _ _ h]
          have hne : ¬ u = x := fun he => hx he.symm
          simp [alookup, hne]
      refine ⟨?_, ?_, ?_, ih4, ih5, ih6⟩
      · rw [ih1]
        have hfc : rest.filter
              (fun v => (alookup (newHandle s u).handles v).isNone) =
            rest.filter (fun v => (alookup s.handles v).isNone) := by
          apply List.filter_congr
          intro x hx
          rw [hlift x (fun he => hu (he ▸ hx))]
        rw [hfc]
        have : (alookup s.handles u).isNone = true := by rw [hnone]; rfl
        simp [List.filter_cons, this, newHandle]
        omega
      · intro k hk
        apply ih2
        rw [hh2]
        rcases h : alookup s.handles k with _ | v
        · rw [h] at hk; cases hk
        · rw [alookup_append_of_some _ _ _ _ h]; rfl
      · intro v hv
        rcases List.mem_cons.mp hv with rfl | hv
        · apply ih2
          rw [hh2, alookup_append_of_none _ _ _ hnone]
          simp [alookup]
        · exact ih3 v hv

theorem length_filter_isNone {β : Type _} (l : List String)
    (f : String → Option β) :
    (l.filter (fun u => (f u).isNone)).length =
      l.length - (l.filter (fun u => (f u).isSome)).length := by
  induction l with
  | nil => rfl
  | cons x t ih =>
    have hle : (t.filter (fun u => (f u).isSome)).length ≤ t.length :=
      List.length_filter_le _ _
    cases hf : f x with
    | none => simp [List.filter_cons, hf, ih]; omega
    | some v => simp [List.filter_cons, hf, ih]

theorem length_filter_mem_comm (l₁ l₂ : List String)
    (h₁ : l₁.Nodup) (h₂ : l₂.Nodup) :
    (l₁.filter (fun x => decide (x ∈ l₂))).length =
      (l₂.filter (fun x => decide (x ∈ l₁))).length := by
  have e₁ : (l₁.filter (fun x => decide (x ∈ l₂))).toFinset =
      l₁.toFinset ∩ l₂.toFinset := by
    ext x
    simp [List.mem_filter]
  have e₂ : (l₂.filter (fun x => decide (x ∈ l₁))).toFinset =
      l₂.toFinset ∩ l₁.toFinset := by
    ext x
    simp [List.mem_filter, and_comm]
  have n₁ : (l₁.filter (fun x => decide (x ∈ l₂))).Nodup := h₁.filter _
  have n₂ : (l₂.filter (fun x => decide (x ∈ l₁))).Nodup := h₂.filter _
  rw [← List.toFinset_card_of_nodup n₁, ← List.toFinset_card_of_nodup n₂,
    e₁, e₂, Finset.inter_comm]

theorem isSome_eq_mem_keys {β : Type _} (m : List (String × β)) (k : String) :
    (alookup m k).isSome = decide (k ∈ akeys m) := by
  by_cases h : k ∈ akeys m
  · simp [h, (alookup_isSome_iff_mem m k).mpr h]
  · have hd : decide (k ∈ akeys m) = false := by simp [h]
    rw [hd]
    cases hl : alookup m k with
    | none => rfl
    | some v =>
      exact absurd ((alookup_isSome_iff_mem m k).mp (by rw [hl]; rfl)) h

/-- C3 (confirmed): a non-empty `UpdateEndpoints` batch of `N` distinct
addresses, arriving when the pre-existing handle registry (with distinct
keys, as a Go map has) overlaps it in `K` addresses, creates exactly
`N − K` handles (each creation consumes one fresh channel, so `nextChan`
grows by exactly `N − K`), removes every handle whose address is not among
the new addresses, leaves every new address with a handle, empties the
abnormal set, and replaces the server list with the new addresses; an
empty batch is a no-op. -/
theorem c3_updateEndpoints_reconciliation (s : MState) (eps : List Endpoint)
    (hne : eps ≠ [])
    (hnd : (eps.map Endpoint.url).Nodup)
    (hkd : (akeys s.handles).Nodup) :
    ((updateEndpoints s eps).nextChan = s.nextChan +
      ((eps.map Endpoint.url).length -
        ((akeys s.handles).filter
          (fun k => decide (k ∈ eps.map Endpoint.url))).length)) ∧
    (∀ addr, addr ∉ eps.map Endpoint.url →
      alookup (updateEndpoints s eps).handles addr = none) ∧
    (∀ u ∈ eps.map Endpoint.url,
      (alookup (updateEndpoints s eps).handles u).isSome) ∧
    (updateEndpoints s eps).abnormalServer = [] ∧
    (∀ x, x ∈ (updateEndpoints s eps).eventServer ↔ x ∈ eps.map Endpoint.url) ∧
    updateEndpoints s [] = s := by
  have hlen : ¬ eps.length < 1 := by
    cases eps
    · exact absurd rfl hne
    · simp
  obtain ⟨f1, f2, f3, _, f5, _⟩ :=
    foldl_addHandle_spec (eps.map Endpoint.url) { s with abnormalServer := [] } hnd
  simp only [updateEndpoints, hlen, if_false]
  refine ⟨?_, ?_, ?_, ?_, ?_, rfl⟩
  · show ((eps.map Endpoint.url).foldl addHandleIfAbsent
        { s with abnormalServer := [] }).nextChan = _
    rw [f1]
    show s.nextChan + _ = _
    rw [length_filter_isNone]
    have hcong : ((eps.map Endpoint.url).filter
          (fun u => (alookup s.handles u).isSome)) =
        ((eps.map Endpoint.url).filter
          (fun u => decide (u ∈ akeys s.handles))) := by
      apply List.filter_congr
      intro x _
      exact isSome_eq_mem_keys s.handles x
    show s.nextChan + ((eps.map Endpoint.url).length -
        ((eps.map Endpoint.url).filter
          (fun u => (alookup s.handles u).isSome)).length) = _
    rw [hcong, length_filter_mem_comm _ _ hnd hkd]
  · intro addr haddr
    have hq : (fun k => decide (k ∈ eps.map Endpoint.url)) addr = false := by
      simp only [decide_eq_false_iff_not]
      exact haddr
    exact alookup_filter_key_false _
      (fun k => decide (k ∈ eps.map Endpoint.url)) addr hq
  · intro u hu
    have hq : (fun k => decide (k ∈ eps.map Endpoint.url)) u = true := by
      simp only [decide_eq_true_eq]
      exact hu
    rw [alookup_filter_key_true
      (List.foldl addHandleIfAbsent { s with abnormalServer := [] }
        (eps.map Endpoint.url)).handles
      (fun k => decide (k ∈ eps.map Endpoint.url)) u hq]
    exact f3 u hu
  · exact f5
  · intro x
    simp

/-- C3 witness: one pre-existing handle for `"a"`, batch `[a, b]`
(`N = 2`, `K = 1`): exactly one handle is created, `"a"` and `"b"` both
have handles, and the abnormal set is emptied. -/
theorem c3_updateEndpoints_reconciliation_witness :
    (updateEndpoints
        { eventServer := ["a"], handles := [("a", ⟨"a", 0⟩)],
          abnormalServer := ["a"], loggers := [], qos := 0, nextChan := 1,
          nextInst := 0, disOk := true }
        [⟨"n1", "a", 0, 0⟩, ⟨"n2", "b", 0, 0⟩]).nextChan = 1 + (2 - 1) ∧
    (updateEndpoints
        { eventServer := ["a"], handles := [("a", ⟨"a", 0⟩)],
          abnormalServer := ["a"], loggers := [], qos := 0, nextChan := 1,
          nextInst := 0, disOk := true }
        [⟨"n1", "a", 0, 0⟩, ⟨"n2", "b", 0, 0⟩]).abnormalServer = [] := by
  have h := c3_updateEndpoints_reconciliation
    { eventServer := ["a"], handles := [("a", ⟨"a", 0⟩)],
      abnormalServer := ["a"], loggers := [], qos := 0, nextChan := 1,
      nextInst := 0, disOk := true }
    [⟨"n1", "a", 0, 0⟩, ⟨"n2", "b", 0, 0⟩]
    (by decide) (by decide) (by decide)
  exact ⟨by rw [h.1]; rfl, h.2.2.2.1⟩

/-! ### Claim C2 — effects of a send failure on a backend's stream -/

/-- C2 counterexample: with `a` the only backend, a send failure on `a`'s
stream marks `a` abnormal (part 1 holds) and removes `a`'s handle
(part 3 holds), but the logger bound to `a`'s queue is reassigned by the
fresh load-balancer selection to the *same* broken channel 0 — the
selection loop skips the now-abnormal `a` and the fallback path returns
the broken handle's own queue, which is still registered because the
deferred `RemoveHandle` runs only after failover.  Part 2 ("reassigned …
to a different healthy queue") is false at this input. -/
theorem c2_counterexample :
    "a" ∈ ((handleLogRun c2State "a" 0
        [.streamOk [.recvFail]]).2.2).abnormalServer ∧
    alookup ((handleLogRun c2State "a" 0
        [.streamOk [.recvFail]]).2.2).handles "a" = none ∧
    alookup ((handleLogRun c2State "a" 0
        [.streamOk [.recvFail]]).2.2).loggers "e" =
      some ⟨0, "e", some 0, 0⟩ := by
  decide

theorem wrap32_eq_self (n : Int) (h₁ : -2147483648 ≤ n) (h₂ : n < 2147483648) :
    wrap32 n = n := by
  unfold wrap32
  omega

theorem tmod_ofNat (m n : Nat) : Int.tmod (↑m) (↑n) = ↑(m % n) := rfl

theorem lbLoop_ab_take (a b : String) (ha hb : Handle)
    (lg : List (String × LoggerV)) (nc ni : Nat) (d : Bool) (k fuel : Nat)
    (hab : a ≠ b) (hk : k % 2 = 1) (hbound : (k : Int) + 1 < 2147483648) :
    lbLoop ⟨[a, b], [(a, ha), (b, hb)], [a], lg, (k : Int), nc, ni, d⟩
        (fuel + 1) =
      (some hb.cacheChan,
        ⟨[a, b], [(a, ha), (b, hb)], [a], lg, ((k + 1 : Nat) : Int),
          nc, ni, d⟩) := by
  have hw1 : wrap32 ((k : Int) + 1) = ((k + 1 : Nat) : Int) := by
    have h : ((k + 1 : Nat) : Int) = (k : Int) + 1 := by push_cast; ring
    rw [h]
    apply wrap32_eq_self <;> omega
  have hba : ¬ b = a := fun he => hab he.symm
  have hmem_b : b ∉ ([a] : List String) := by simp [hba]
  have hlook_b : alookup [(a, ha), (b, hb)] b = some hb := by
    simp [alookup, hab]
  unfold lbLoop
  simp only [show ([a, b] : List String).length = 2 from rfl, tmod_ofNat, hk,
    Nat.cast_one]
  rw [dif_pos (by norm_num)]
  simp only [Int.toNat_one, List.get]
  rw [if_neg hmem_b, hlook_b, hw1]

theorem lbLoop_ab_skip (a b : String) (ha hb : Handle)
    (lg : List (String × LoggerV)) (nc ni : Nat) (d : Bool) (k fuel : Nat)
    (hk : k % 2 = 0) (hbound : (k : Int) + 1 < 2147483648) :
    lbLoop ⟨[a, b], [(a, ha), (b, hb)], [a], lg, (k : Int), nc, ni, d⟩
        (fuel + 2) =
      lbLoop ⟨[a, b], [(a, ha), (b, hb)], [a], lg, ((k + 1 : Nat) : Int),
        nc, ni, d⟩ (fuel + 1) := by
  have hw1 : wrap32 ((k : Int) + 1) = ((k + 1 : Nat) : Int) := by
    have h : ((k + 1 : Nat) : Int) = (k : Int) + 1 := by push_cast; ring
    rw [h]
    apply wrap32_eq_self <;> omega
  have hmem_a : a ∈ ([a] : List String) := by simp
  conv_lhs =>
    rw [show fuel + 2 = (fuel + 1) + 1 from rfl]
    unfold lbLoop
  simp only [show ([a, b] : List String).length = 2 from rfl, tmod_ofNat, hk,
    Nat.cast_zero]
  rw [dif_pos (by norm_num)]
  simp only [Int.toNat_zero, List.get]
  rw [if_pos hmem_a, hw1]

theorem getLBChan_ab (a b : String) (ha hb : Handle)
    (lg : List (String × LoggerV)) (nc ni : Nat) (d : Bool) (m : Nat)
    (hab : a ≠ b) (hbound : (m : Int) + 2 < 2147483648) :
    getLBChan ⟨[a, b], [(a, ha), (b, hb)], [a], lg, (m : Int), nc, ni, d⟩ =
      (some hb.cacheChan,
        ⟨[a, b], [(a, ha), (b, hb)], [a], lg, ((m + 2 - m % 2 : Nat) : Int),
          nc, ni, d⟩) := by
  show lbLoop ⟨[a, b], [(a, ha), (b, hb)], [a], lg, (m : Int), nc, ni, d⟩ 2 = _
  rcases Nat.mod_two_eq_zero_or_one m with hm | hm
  · rw [show (2 : Nat) = 0 + 2 from rfl,
      lbLoop_ab_skip a b ha hb lg nc ni d m 0 hm (by omega),
      lbLoop_ab_take a b ha hb lg nc ni d (m + 1) 0 hab (by omega)
        (by push_cast; omega),
      show m + 2 - m % 2 = m + 1 + 1 by omega]
  · rw [show (2 : Nat) = 1 + 1 from rfl,
      lbLoop_ab_take a b ha hb lg nc ni d m 1 hab hm (by omega),
      show m + 2 - m % 2 = m + 1 by omega]

theorem migrateLoggers_ab (a b : String) (ha hb : Handle) (hab : a ≠ b)
    (ls : List (String × LoggerV)) :
    ∀ (lg : List (String × LoggerV)) (nc ni : Nat) (d : Bool) (m : Nat),
    (m : Int) + 2 * ls.length + 2 < 2147483648 →
    ∃ m' : Nat,
      migrateLoggers ha.cacheChan
          ⟨[a, b], [(a, ha), (b, hb)], [a], lg, (m : Int), nc, ni, d⟩ ls =
        (ls.map (fun kv => if kv.2.sendChan = some ha.cacheChan
            then (kv.1, { kv.2 with sendChan := some hb.cacheChan }) else kv),
         ⟨[a, b], [(a, ha), (b, hb)], [a], lg, (m' : Int), nc, ni, d⟩) ∧
      m ≤ m' ∧ m' ≤ m + 2 * ls.length := by
  induction ls with
  | nil =>
    intro lg nc ni d m hbound
    exact ⟨m, rfl, le_refl m, by omega⟩
  | cons kv rest ih =>
    intro lg nc ni d m hbound
    obtain ⟨key, l⟩ := kv
    by_cases hc : l.sendChan = some ha.cacheChan
    · have hsel := getLBChan_ab a b ha hb lg nc ni d m hab (by
        simp only [List.length_cons] at hbound
        omega)
      obtain ⟨m', hmig, hle1, hle2⟩ := ih lg nc ni d (m + 2 - m % 2) (by
        simp only [List.length_cons] at hbound
        omega)
      refine ⟨m', ?_, by omega, by
        simp only [List.length_cons]
        omega⟩
      simp only [migrateLoggers, hsel, hmig]
      simp [List.map_cons, hc]
    · obtain ⟨m', hmig, hle1, hle2⟩ := ih lg nc ni d m (by
        simp only [List.length_cons] at hbound
        omega)
      refine ⟨m', ?_, hle1, by
        simp only [List.length_cons]
        omega⟩
      simp only [migrateLoggers, hmig]
      simp [List.map_cons, hc]

theorem discardedLoggerChan_ab (a b : String) (ha hb : Handle)
    (lg : List (String × LoggerV)) (nc ni : Nat) (d : Bool) (m : Nat)
    (hab : a ≠ b) (hchan : hb.cacheChan ≠ ha.cacheChan)
    (hbound : (m : Int) + 2 * lg.length + 2 < 2147483648) :
    ∃ m' : Nat,
      discardedLoggerChan
          ⟨[a, b], [(a, ha), (b, hb)], [], lg, (m : Int), nc, ni, d⟩
          ha.cacheChan =
        ⟨[a, b], [(a, ha), (b, hb)], [a],
          lg.map (fun kv => if kv.2.sendChan = some ha.cacheChan
            then (kv.1, { kv.2 with sendChan := some hb.cacheChan }) else kv),
          ((m' : Nat) : Int), nc, ni, d⟩ := by
  have hmark : markAbnormal
      ⟨[a, b], [(a, ha), (b, hb)], [], lg, (m : Int), nc, ni, d⟩ ha.cacheChan =
      ⟨[a, b], [(a, ha), (b, hb)], [a], lg, (m : Int), nc, ni, d⟩ := by
    simp [markAbnormal, insertSet, hchan]
  obtain ⟨m', hmig, _, _⟩ :=
    migrateLoggers_ab a b ha hb hab lg lg nc ni d m hbound
  refine ⟨m', ?_⟩
  unfold discardedLoggerChan
  rw [hmark]
  simp only [hmig]

/-- C2 amended: a send failure on `a`'s stream still yields (1) `a` in the
abnormal set and (3) `a`'s handle absent from the registry; part (2) holds
in the amended form: every logger bound to `a`'s queue is reassigned by a
fresh load-balancer selection, which returns a *different healthy* queue
whenever a healthy backend exists (here the two-server topology `[a, b]`
with `b` healthy: every such logger ends on `b`'s distinct channel), but
when no healthy backend exists the fallback can hand back the same broken
queue (counterexample above).  Stated for any logger registry, any cursor
value `m` with room to advance without 32-bit wrap, and any number `n` of
successful sends before the failing one. -/
theorem c2_amended_failover (a b : String) (ha hb : Handle)
    (lg : List (String × LoggerV)) (nc ni : Nat) (d : Bool) (m n : Nat)
    (hab : a ≠ b) (hchan : hb.cacheChan ≠ ha.cacheChan)
    (hbound : (m : Int) + 2 * lg.length + 2 < 2147483648) :
    ∃ m' : Nat,
      (handleLogRun ⟨[a, b], [(a, ha), (b, hb)], [], lg, (m : Int), nc, ni, d⟩
          a ha.cacheChan
          [.streamOk (List.replicate n .recvOk ++ [.recvFail])]).2.2 =
        ⟨[a, b], [(b, hb)], [a],
          lg.map (fun kv => if kv.2.sendChan = some ha.cacheChan
            then (kv.1, { kv.2 with sendChan := some hb.cacheChan }) else kv),
          ((m' : Nat) : Int), nc, ni, d⟩ ∧
      a ∈ ((handleLogRun
          ⟨[a, b], [(a, ha), (b, hb)], [], lg, (m : Int), nc, ni, d⟩
          a ha.cacheChan
          [.streamOk (List.replicate n .recvOk ++
            [.recvFail])]).2.2).abnormalServer ∧
      alookup ((handleLogRun
          ⟨[a, b], [(a, ha), (b, hb)], [], lg, (m : Int), nc, ni, d⟩
          a ha.cacheChan
          [.streamOk (List.replicate n .recvOk ++
            [.recvFail])]).2.2).handles a = none ∧
      hb.cacheChan ≠ ha.cacheChan := by
  have hba : ¬ b = a := fun he => hab he.symm
  obtain ⟨m', hdis⟩ :=
    discardedLoggerChan_ab a b ha hb lg nc ni d m hab hchan hbound
  have hrun : (handleLogRun
      ⟨[a, b], [(a, ha), (b, hb)], [], lg, (m : Int), nc, ni, d⟩
      a ha.cacheChan
      [.streamOk (List.replicate n .recvOk ++ [.recvFail])]).2.2 =
      removeHandle (discardedLoggerChan
        ⟨[a, b], [(a, ha), (b, hb)], [], lg, (m : Int), nc, ni, d⟩
        ha.cacheChan) a := by
    simp only [handleLogRun, handleAttempt, drainLoop_sendFail]
  have hrem : removeHandle
      (⟨[a, b], [(a, ha), (b, hb)], [a],
        lg.map (fun kv => if kv.2.sendChan = some ha.cacheChan
          then (kv.1, { kv.2 with sendChan := some hb.cacheChan }) else kv),
        ((m' : Nat) : Int), nc, ni, d⟩ : MState) a =
      ⟨[a, b], [(b, hb)], [a],
        lg.map (fun kv => if kv.2.sendChan = some ha.cacheChan
          then (kv.1, { kv.2 with sendChan := some hb.cacheChan }) else kv),
        ((m' : Nat) : Int), nc, ni, d⟩ := by
    simp [removeHandle, alookup, aerase, hba]
  refine ⟨m', ?_, ?_, ?_, hchan⟩
  · rw [hrun, hdis, hrem]
  · rw [hrun, hdis, hrem]
    simp
  · rw [hrun, hdis, hrem]
    simp [alookup, hba]

/-- C2 amended witness: servers `[a, b]`, one logger on `a`'s channel 0,
cursor 0; after the send failure `a` is abnormal and its handle is gone. -/
theorem c2_amended_failover_witness :
    "a" ∈ ((handleLogRun
        ⟨["a", "b"], [("a", ⟨"a", 0⟩), ("b", ⟨"b", 1⟩)], [],
          [("e", ⟨0, "e", some 0, 0⟩)], (0 : Int), 2, 1, true⟩ "a" 0
        [.streamOk (List.replicate 0 .recvOk ++
          [.recvFail])]).2.2).abnormalServer ∧
    alookup ((handleLogRun
        ⟨["a", "b"], [("a", ⟨"a", 0⟩), ("b", ⟨"b", 1⟩)], [],
          [("e", ⟨0, "e", some 0, 0⟩)], (0 : Int), 2, 1, true⟩ "a" 0
        [.streamOk (List.replicate 0 .recvOk ++
          [.recvFail])]).2.2).handles "a" = none := by
  obtain ⟨m', h1, h2, h3, h4⟩ := c2_amended_failover "a" "b" ⟨"a", 0⟩ ⟨"b", 1⟩
    [("e", ⟨0, "e", some 0, 0⟩)] 2 1 true 0 0 (by decide) (by decide)
    (by decide)
  exact ⟨h2, h3⟩

end RainbondEvent
